import Mathlib

/-!
Verification development for the handwritten-timesheet filler
(`src/main.py`).  The Python source is shallowly embedded: pure helper
functions become Lean functions over `Nat`, `ℚ`, `List Char` and
`String`; a Python function that can raise an uncaught exception is
embedded with result type `Except Unit _`; `datetime.date` values are
represented by their proleptic Gregorian ordinal (Python's
`date.toordinal`), which is an order isomorphism on valid dates, and
`datetime.time` values by an hour/minute record validated on
construction exactly where `dt.time(...)` validates.  Regular
expressions from the source (`TIME_RE`, `DATE_RE`, the separator split
and the trailing-hours pattern) are embedded as explicit left-to-right
scanners implementing the leftmost/greedy semantics of Python `re` for
those particular patterns, over ASCII text.  Python `float` arithmetic
on the small decimal values involved is modelled exactly by `ℚ`;
`round(x, 2)` is modelled by round-half-to-even on `ℚ`.
-/

instance exceptDecidableEq {ε α : Type} [DecidableEq ε] [DecidableEq α] :
    DecidableEq (Except ε α)
  | Except.ok a, Except.ok b =>
    if h : a = b then isTrue (by rw [h]) else isFalse (by intro hc; cases hc; exact h rfl)
  | Except.error a, Except.error b =>
    if h : a = b then isTrue (by rw [h]) else isFalse (by intro hc; cases hc; exact h rfl)
  | Except.ok _, Except.error _ => isFalse (by intro hc; cases hc)
  | Except.error _, Except.ok _ => isFalse (by intro hc; cases hc)

/-- ASCII whitespace as recognised by Python `str.strip` and `\s`. -/
def pySpace (c : Char) : Bool :=
  c = ' ' || c = '\t' || c = '\n' || c = '\r' || c = '\x0b' || c = '\x0c'

/-- Python word character for `\b` (ASCII fragment). -/
def wordChar (c : Char) : Bool :=
  c.isAlpha || c.isDigit || c = '_'

/-- Python `str.strip()` on the character list. -/
def pyStripChars (l : List Char) : List Char :=
  ((l.dropWhile pySpace).reverse.dropWhile pySpace).reverse

/-- Python `str.strip()`. -/
def pyStrip (s : String) : String :=
  String.mk (pyStripChars s.data)

/-- Python `str.splitlines()` restricted to the line boundaries
occurring in this pipeline (`\n`, `\r`, `\r\n`); no trailing empty
piece is produced for a final terminator, matching Python. -/
def pySplitlines : List Char → List String
  | [] => []
  | '\r' :: '\n' :: rest => "" :: pySplitlines rest
  | '\r' :: rest => "" :: pySplitlines rest
  | '\n' :: rest => "" :: pySplitlines rest
  | c :: rest =>
    match pySplitlines rest with
    | [] => [String.mk [c]]
    | p :: ps => String.mk (c :: p.data) :: ps

/-- Numeric value of a digit character. -/
def digitVal (c : Char) : Nat := c.toNat - 48

/-- Value of a digit string, most significant first
(Python `int` on a digit-only string). -/
def natOfDigits (l : List Char) : Nat :=
  l.foldl (fun a c => 10 * a + digitVal c) 0

/-- A time of day, mirroring `datetime.time` restricted to the
hour/minute fields used by the program. -/
structure Time where
  hour : Nat
  minute : Nat
deriving DecidableEq, Repr

/-- Model of the `dt.time(hour=…, minute=…)` constructor: raises
`ValueError` (embedded as `Except.error ()`) unless `0 ≤ hour ≤ 23`
and `0 ≤ minute ≤ 59`. -/
def mkTime (h m : Nat) : Except Unit Time :=
  if h < 24 && m < 60 then Except.ok ⟨h, m⟩ else Except.error ()

/-- Raw result of a successful `TIME_RE` match: the hour digits, the
optional two-digit minute group and the optional am/pm group text. -/
structure TimeMatch where
  h : Nat
  min? : Option Nat
  ampm? : Option (List Char)
deriving DecidableEq, Repr

/-- Match the optional `a\.?m\.?|p\.?m\.?` tail (case-insensitive),
returning the matched text. -/
def matchAmpm : List Char → Option (List Char)
  | a :: '.' :: m :: '.' :: _ =>
    if (a = 'a' || a = 'A' || a = 'p' || a = 'P') && (m = 'm' || m = 'M') then
      some [a, '.', m, '.']
    else none
  | a :: '.' :: m :: _ =>
    if (a = 'a' || a = 'A' || a = 'p' || a = 'P') && (m = 'm' || m = 'M') then
      some [a, '.', m]
    else none
  | a :: m :: '.' :: _ =>
    if (a = 'a' || a = 'A' || a = 'p' || a = 'P') && (m = 'm' || m = 'M') then
      some [a, m, '.']
    else none
  | a :: m :: _ =>
    if (a = 'a' || a = 'A' || a = 'p' || a = 'P') && (m = 'm' || m = 'M') then
      some [a, m]
    else none
  | _ => none

/-- Match `TIME_RE` at a position whose first character is a digit:
greedy 1–2 digit hour, optional `:` plus exactly two digits, `\s*`,
optional am/pm group.  Everything after the hour is optional, so the
match always succeeds here. -/
def matchTimeAt (c : Char) (rest : List Char) : TimeMatch :=
  let (hds, r1) :=
    match rest with
    | d :: r => if d.isDigit then ([c, d], r) else ([c], rest)
    | [] => ([c], rest)
  let (min?, r2) :=
    match r1 with
    | ':' :: d1 :: d2 :: r =>
      if d1.isDigit && d2.isDigit then (some (natOfDigits [d1, d2]), r) else (none, r1)
    | _ => (none, r1)
  let r3 := r2.dropWhile pySpace
  { h := natOfDigits hds, min? := min?, ampm? := matchAmpm r3 }

/-- `TIME_RE.search`: the leftmost match begins at the first digit. -/
def timeSearch : List Char → Option TimeMatch
  | [] => none
  | c :: rest => if c.isDigit then some (matchTimeAt c rest) else timeSearch rest

/-- ASCII lowercase plus removal of `.`, modelling
`.lower().replace(".", "")`. -/
def pyLowerNoDots (s : String) : String :=
  String.mk ((s.data.filter (fun c => c ≠ '.')).map Char.toLower)

/-- The string `(m.group("ampm") or default_ampm or "")` after
normalisation. -/
def ampmNorm (g : Option (List Char)) (default_ampm : Option String) : String :=
  pyLowerNoDots (match g with
    | some a => String.mk a
    | none => default_ampm.getD (""))

/-- The 12-hour → 24-hour adjustment of `parse_time` (the two
sequential `if` statements on `h`). -/
def adjustedHour (h : Nat) (a : String) : Nat :=
  let h1 := if (a = "pm" ∨ a = "p") ∧ h ≠ 12 then h + 12 else h
  if (a = "am" ∨ a = "a") ∧ h1 = 12 then 0 else h1

/-- Embedding of `parse_time` (src/main.py:103-116).  Returns
`ok none` when `TIME_RE` does not match, `ok (some t)` on success and
`error ()` when the `dt.time` constructor raises. -/
def parse_time (text : String) (default_ampm : Option String) : Except Unit (Option Time) :=
  match timeSearch text.data with
  | none => Except.ok none
  | some tm =>
    let minute := tm.min?.getD 0
    let h2 := adjustedHour tm.h (ampmNorm tm.ampm? default_ampm)
    match mkTime (h2 % 24) minute with
    | Except.ok t => Except.ok (some t)
    | Except.error u => Except.error u

example : parse_time ("12am") none = Except.ok (some ⟨0, 0⟩) := by decide
example : parse_time ("12pm") none = Except.ok (some ⟨12, 0⟩) := by decide
example : parse_time ("1pm") none = Except.ok (some ⟨13, 0⟩) := by decide
example : parse_time ("11:30am") none = Except.ok (some ⟨11, 30⟩) := by decide
example : parse_time (" 3pm ") none = Except.ok (some ⟨15, 0⟩) := by decide
example : parse_time ("9:75") none = Except.error () := by decide
example : parse_time ("abc") none = Except.ok none := by decide
example : parse_time ("9:5pm") none = Except.ok (some ⟨9, 0⟩) := by decide

/-- The tuple comparison `(a.hour, a.minute) <= (b.hour, b.minute)`
used on `datetime` values combined onto the same day. -/
def lexLE (a b : Time) : Prop :=
  a.hour < b.hour ∨ (a.hour = b.hour ∧ a.minute ≤ b.minute)

instance lexLEDecidable (a b : Time) : Decidable (lexLE a b) :=
  inferInstanceAs (Decidable (a.hour < b.hour ∨ (a.hour = b.hour ∧ a.minute ≤ b.minute)))

/-- `(datetime.combine(today, t) + timedelta(hours=12)).time()`. -/
def addHours12 (t : Time) : Time :=
  ⟨(t.hour + 12) % 24, t.minute⟩

/-- Embedding of `infer_times` (src/main.py:119-152).  The
`end_has_ampm`/`start_has_ampm` flags of the source feed only a `pass`
statement and cannot influence the result, so they are omitted.
Errors raised by `parse_time` propagate (start text first, as in the
source). -/
def infer_times (start_txt end_txt : String) (assume_start_9am : Bool) :
    Except Unit (Option Time × Time) :=
  match parse_time start_txt none with
  | Except.error u => Except.error u
  | Except.ok st0 =>
    match parse_time end_txt none with
    | Except.error u => Except.error u
    | Except.ok en0 =>
      let start1 := if assume_start_9am && st0.isNone then some ⟨9, 0⟩ else st0
      match start1, en0 with
      | some s, some e =>
        let e2 := if lexLE e s then addHours12 e else e
        Except.ok (some s, e2)
      | s1, e1 =>
        let start2 := if s1.isNone && assume_start_9am then some ⟨9, 0⟩ else s1
        Except.ok (start2, e1.getD ⟨17, 0⟩)

example : infer_times (" 9 ") (" 3pm ") true = Except.ok (some ⟨9, 0⟩, ⟨15, 0⟩) := by decide
example : infer_times (" 9 ") (" 5 ") true = Except.ok (some ⟨9, 0⟩, ⟨17, 0⟩) := by decide
example : infer_times ("") ("") false = Except.ok (none, ⟨17, 0⟩) := by decide
example : infer_times ("") ("") true = Except.ok (some ⟨9, 0⟩, ⟨17, 0⟩) := by decide

/-- `Nat.gcd` with explicit fuel.  The library `Nat.gcd` is defined by
well-founded recursion and does not reduce inside the kernel; this
fuelled version does, and agrees with it whenever `m < fuel`. -/
def gcdF : Nat → Nat → Nat → Nat
  | 0, _, n => n
  | fuel + 1, m, n => if m = 0 then n else gcdF fuel (n % m) m

/-- Kernel-reducible gcd. -/
def myGcd (m n : Nat) : Nat := gcdF (m + 1) m n

theorem gcdF_eq_gcd : ∀ fuel m n, m < fuel → gcdF fuel m n = Nat.gcd m n := by
  intro fuel
  induction fuel with
  | zero => intro m n h; omega
  | succ f ih =>
    intro m n h
    by_cases hm : m = 0
    · subst hm
      simp [gcdF, Nat.gcd]
    · have hrec : n % m < f := by
        have h1 : n % m < m := Nat.mod_lt n (Nat.pos_of_ne_zero hm)
        omega
      have : gcdF (f + 1) m n = gcdF f (n % m) m := by simp [gcdF, hm]
      rw [this, ih (n % m) m hrec]
      exact (Nat.gcd_rec m n).symm

theorem myGcd_eq_gcd (m n : Nat) : myGcd m n = Nat.gcd m n :=
  gcdF_eq_gcd (m + 1) m n (Nat.lt_succ_self m)

theorem qmk_den_nz (n : ℤ) (d : ℕ) (hd : d ≠ 0) : d / myGcd n.natAbs d ≠ 0 := by
  rw [myGcd_eq_gcd]
  have hdpos : 0 < d := Nat.pos_of_ne_zero hd
  have hgpos : 0 < Nat.gcd n.natAbs d := Nat.gcd_pos_of_pos_right n.natAbs hdpos
  have hgd : Nat.gcd n.natAbs d ∣ d := Nat.gcd_dvd_right n.natAbs d
  have hle : Nat.gcd n.natAbs d ≤ d := Nat.le_of_dvd hdpos hgd
  intro hzero
  have h2 := Nat.div_add_mod d (Nat.gcd n.natAbs d)
  have h3 : d % Nat.gcd n.natAbs d < Nat.gcd n.natAbs d := Nat.mod_lt _ hgpos
  rw [hzero, Nat.mul_zero, Nat.zero_add] at h2
  rw [h2] at h3
  omega

theorem qmk_reduced (n : ℤ) (d : ℕ) (hd : d ≠ 0) :
    (if n < 0 then -((n.natAbs / myGcd n.natAbs d : ℕ) : ℤ)
      else ((n.natAbs / myGcd n.natAbs d : ℕ) : ℤ)).natAbs.Coprime (d / myGcd n.natAbs d) := by
  rw [myGcd_eq_gcd]
  have hdpos : 0 < d := Nat.pos_of_ne_zero hd
  have hgpos : 0 < Nat.gcd n.natAbs d := Nat.gcd_pos_of_pos_right n.natAbs hdpos
  have habs : (if n < 0 then -((n.natAbs / Nat.gcd n.natAbs d : ℕ) : ℤ)
      else ((n.natAbs / Nat.gcd n.natAbs d : ℕ) : ℤ)).natAbs
      = n.natAbs / Nat.gcd n.natAbs d := by
    by_cases hneg : n < 0
    · rw [if_pos hneg, Int.natAbs_neg, Int.natAbs_ofNat]
    · rw [if_neg hneg, Int.natAbs_ofNat]
  rw [habs]
  exact Nat.coprime_div_gcd_div_gcd hgpos

/-- Kernel-reducible construction of the rational `n / d` in lowest
terms (`0` when `d = 0`, which never occurs in this development). -/
def qmk (n : ℤ) (d : ℕ) : ℚ :=
  if hd : d = 0 then 0
  else
    Rat.mk'
      (if n < 0 then -((n.natAbs / myGcd n.natAbs d : ℕ) : ℤ)
        else ((n.natAbs / myGcd n.natAbs d : ℕ) : ℤ))
      (d / myGcd n.natAbs d)
      (qmk_den_nz n d hd) (qmk_reduced n d hd)

theorem qmk_eq (n : ℤ) (d : ℕ) (hd : d ≠ 0) : qmk n d = (n : ℚ) / (d : ℚ) := by
  unfold qmk
  rw [dif_neg hd, Rat.mk'_eq_divInt, Rat.divInt_eq_div, myGcd_eq_gcd]
  have hdpos : 0 < d := Nat.pos_of_ne_zero hd
  have hgpos : 0 < Nat.gcd n.natAbs d := Nat.gcd_pos_of_pos_right n.natAbs hdpos
  have hgn : Nat.gcd n.natAbs d ∣ n.natAbs := Nat.gcd_dvd_left n.natAbs d
  have hgd : Nat.gcd n.natAbs d ∣ d := Nat.gcd_dvd_right n.natAbs d
  have hgQ : ((Nat.gcd n.natAbs d : ℚ)) ≠ 0 := by positivity
  have hcast1 : ((n.natAbs / Nat.gcd n.natAbs d : ℕ) : ℚ)
      = (n.natAbs : ℚ) / (Nat.gcd n.natAbs d : ℚ) := Nat.cast_div hgn hgQ
  have hcast2 : ((d / Nat.gcd n.natAbs d : ℕ) : ℚ)
      = (d : ℚ) / (Nat.gcd n.natAbs d : ℚ) := Nat.cast_div hgd hgQ
  have hdQ : (d : ℚ) ≠ 0 := by positivity
  by_cases hneg : n < 0
  · rw [if_pos hneg, Int.cast_neg, Int.cast_natCast, Int.cast_natCast, hcast1, hcast2]
    have habsQ : ((n.natAbs : ℕ) : ℚ) = -(n : ℚ) := by
      have h1 : ((n.natAbs : ℕ) : ℤ) = -n := by omega
      have h2 := congrArg (fun z : ℤ => (z : ℚ)) h1
      simp only [Int.cast_natCast, Int.cast_neg] at h2
      exact h2
    rw [habsQ]
    field_simp
  · rw [if_neg hneg, Int.cast_natCast, Int.cast_natCast, hcast1, hcast2]
    have habsQ : ((n.natAbs : ℕ) : ℚ) = (n : ℚ) := by
      have h1 : ((n.natAbs : ℕ) : ℤ) = n := Int.natAbs_of_nonneg (by omega)
      have h2 := congrArg (fun z : ℤ => (z : ℚ)) h1
      simp only [Int.cast_natCast] at h2
      exact h2
    rw [habsQ]
    field_simp

/-- Round-half-to-even of the fraction `a / b` to an integer
(`b > 0`), the tie behaviour of Python's `round`; computed with
integer arithmetic so that it reduces in the kernel. -/
def rheDiv (a b : ℤ) : ℤ :=
  let n := a / b
  let r := a % b
  if 2 * r < b then n
  else if b < 2 * r then n + 1
  else if n % 2 = 0 then n else n + 1

/-- Python `round(x, 2)` modelled on `ℚ`. -/
def round2 (q : ℚ) : ℚ :=
  qmk (rheDiv (q.num * 100) (q.den : ℤ)) 100

/-- Minutes after midnight. -/
def timeMinutes (t : Time) : Nat :=
  60 * t.hour + t.minute

/-- Embedding of `hours_between` (src/main.py:155-161): combine both
times onto the same day, add one day to the end when it does not
exceed the start, and round the elapsed hours to two decimals
(`qmk x 60` is the exact rational `delta.total_seconds() / 3600.0`). -/
def hours_between (start stop : Time) : ℚ :=
  let s := timeMinutes start
  let e := timeMinutes stop
  let e2 := if lexLE stop start then e + 1440 else e
  round2 (qmk ((e2 : ℤ) - (s : ℤ)) 60)

example : hours_between ⟨9, 0⟩ ⟨17, 0⟩ = 8 := by decide
example : hours_between ⟨22, 0⟩ ⟨6, 0⟩ = 8 := by decide
example : hours_between ⟨9, 0⟩ ⟨15, 0⟩ = 6 := by decide
example : hours_between ⟨9, 30⟩ ⟨9, 31⟩ = qmk 2 100 := by decide

/-- Gregorian leap-year test. -/
def isLeap (y : Nat) : Bool :=
  y % 4 = 0 && (y % 100 ≠ 0 || y % 400 = 0)

/-- Length of a month. -/
def daysInMonth (y m : Nat) : Nat :=
  if m = 2 then (if isLeap y then 29 else 28)
  else if m = 4 ∨ m = 6 ∨ m = 9 ∨ m = 11 then 30
  else 31

/-- Validity test of `dt.date(y, m, d)` (which raises `ValueError`
outside these bounds; Python years run 1–9999). -/
def isValidDate (y m d : Nat) : Bool :=
  1 ≤ y && y ≤ 9999 && 1 ≤ m && m ≤ 12 && 1 ≤ d && d ≤ daysInMonth y m

/-- Days in year `y` strictly before month `m`. -/
def daysBeforeMonth (y m : Nat) : Nat :=
  (List.range (m - 1)).foldl (fun a i => a + daysInMonth y (i + 1)) 0

/-- Days strictly before year `y` in the proleptic Gregorian calendar. -/
def daysBeforeYear (y : Nat) : Nat :=
  365 * (y - 1) + (y - 1) / 4 - (y - 1) / 100 + (y - 1) / 400

/-- Python `date(y, m, d).toordinal()`: day 1 is 0001-01-01.  Dates are
represented throughout by this ordinal, an order isomorphism on valid
dates, so `min`, date subtraction and `timedelta` arithmetic on dates
become `Nat`/`ℤ` arithmetic. -/
def dateOrd (y m d : Nat) : Nat :=
  daysBeforeYear y + daysBeforeMonth y m + d

/-- Python `date.weekday()` on an ordinal: Monday = 0. -/
def pyWeekday (ord : Nat) : Nat :=
  (ord - 1) % 7

example : dateOrd 1 1 1 = 1 := by decide
example : pyWeekday (dateOrd 2025 8 4) = 0 := by decide
example : pyWeekday (dateOrd 2025 7 28) = 0 := by decide
example : pyWeekday (dateOrd 2025 8 3) = 6 := by decide

/-- Exactly `n` leading digit characters, with the remainder. -/
def takeDigits : Nat → List Char → Option (List Char × List Char)
  | 0, l => some ([], l)
  | n + 1, c :: rest =>
    if c.isDigit then (takeDigits n rest).map (fun p => (c :: p.1, p.2)) else none
  | _ + 1, [] => none

/-- The slash-or-hyphen separator of `DATE_RE`. -/
def takeSep : List Char → Option (List Char)
  | c :: rest => if c = '/' ∨ c = '-' then some rest else none
  | [] => none

/-- The optional separator-plus-year tail of `DATE_RE` (two to four
digits), greedy from four digits down to two. -/
def tryYear (l : List Char) : Option Nat :=
  match takeSep l with
  | none => none
  | some r =>
    match takeDigits 4 r with
    | some (ds, _) => some (natOfDigits ds)
    | none =>
      match takeDigits 3 r with
      | some (ds, _) => some (natOfDigits ds)
      | none =>
        match takeDigits 2 r with
        | some (ds, _) => some (natOfDigits ds)
        | none => none

/-- One `DATE_RE` match attempt with fixed month/day digit counts. -/
def tryDateMD (mlen dlen : Nat) (l : List Char) : Option (Nat × Nat × Option Nat) :=
  match takeDigits mlen l with
  | none => none
  | some (mds, r1) =>
    match takeSep r1 with
    | none => none
    | some r2 =>
      match takeDigits dlen r2 with
      | none => none
      | some (dds, r3) => some (natOfDigits mds, natOfDigits dds, tryYear r3)

/-- `DATE_RE` match attempt at one position, in the backtracking order
of the greedy `\d{1,2}` groups: month 2 digits before 1, then day 2
digits before 1. -/
def tryDateAt (l : List Char) : Option (Nat × Nat × Option Nat) :=
  match tryDateMD 2 2 l with
  | some r => some r
  | none =>
    match tryDateMD 2 1 l with
    | some r => some r
    | none =>
      match tryDateMD 1 2 l with
      | some r => some r
      | none => tryDateMD 1 1 l

/-- `DATE_RE.search`: leftmost position wins. -/
def dateSearch : List Char → Option (Nat × Nat × Option Nat)
  | [] => none
  | c :: rest =>
    match tryDateAt (c :: rest) with
    | some r => some r
    | none => dateSearch rest

/-- The fallback `re.match(r"^(?P<d>\d{1,2})\b", line)`: one or two
leading digits followed by a word boundary. -/
def leadDay : List Char → Option Nat
  | [] => none
  | [c1] => if c1.isDigit then some (natOfDigits [c1]) else none
  | c1 :: c2 :: rest =>
    if c1.isDigit && c2.isDigit then
      match rest with
      | [] => some (natOfDigits [c1, c2])
      | c3 :: _ => if wordChar c3 then none else some (natOfDigits [c1, c2])
    else if c1.isDigit then
      if wordChar c2 then none else some (natOfDigits [c1])
    else none

/-- The date-extraction step of `parse_handwritten_lines`
(src/main.py:187-199): `DATE_RE` first (year defaulting to the
configured year), then a leading bare day number combined with the
configured month/year. -/
def extractDate (line : String) (month year : Nat) : Option (Nat × Nat × Nat) :=
  match dateSearch line.data with
  | some (m, d, y?) => some (m, d, y?.getD year)
  | none =>
    match leadDay line.data with
    | some d => some (month, d, year)
    | none => none

example : extractDate ("8/4 - 9 to 3pm - 6") 8 2025 = some (8, 4, 2025) := by decide
example : extractDate ("4 - 9 to 3pm") 8 2025 = some (8, 4, 2025) := by decide
example : extractDate ("lorem ipsum") 8 2025 = none := by decide
example : extractDate ("7/28/25 - 9 to 5") 8 2025 = some (7, 28, 25) := by decide

def isDashChar (c : Char) : Bool := c = '-' || c = '–' || c = '—'

def isTChar (c : Char) : Bool := c = 't' || c = 'T'

def isOChar (c : Char) : Bool := c = 'o' || c = 'O'

/-- `re.split(r"[-–—]|to", line, flags=re.I)`: left-to-right scan, the
dash alternative first (the alternatives cannot overlap). -/
def splitSepAux : List Char → List (List Char)
  | [] => [[]]
  | [c] => if isDashChar c then [[], []] else [[c]]
  | c :: o :: rest =>
    if isDashChar c then [] :: splitSepAux (o :: rest)
    else if isTChar c && isOChar o then [] :: splitSepAux rest
    else
      match splitSepAux (o :: rest) with
      | [] => [[c]]
      | p :: ps => (c :: p) :: ps

def pySplitSep (s : String) : List String :=
  (splitSepAux s.data).map String.mk

example : pySplitSep ("8/4 - 9 to 3pm - 6") = ["8/4 ", " 9 ", " 3pm ", " 6"] := by decide
example : pySplitSep ("8/4") = ["8/4"] := by decide

/-- Exact rational value of the decimal literal `ds.fs`
(Python `float(...)` on the matched hours group, modelled exactly). -/
def ratOfDecimal (ds fs : List Char) : ℚ :=
  qmk ((natOfDigits ds * 10 ^ fs.length + natOfDigits fs : ℕ) : ℤ) (10 ^ fs.length)

/-- Match `(\d+(?:\.\d+)?)\s*$` against the whole remaining suffix.
The `\d+` groups are forced to be maximal digit runs because the
pattern must reach the end anchor. -/
def numSuffix (l : List Char) : Option ℚ :=
  let ds := l.takeWhile Char.isDigit
  let r := l.dropWhile Char.isDigit
  if ds.isEmpty then none
  else
    match r with
    | '.' :: r2 =>
      let fs := r2.takeWhile Char.isDigit
      let r3 := r2.dropWhile Char.isDigit
      if !fs.isEmpty && r3.all pySpace then some (ratOfDecimal ds fs) else none
    | _ => if r.all pySpace then some (ratOfDecimal ds []) else none

/-- `re.search` for the trailing-hours pattern: leftmost matching
position. -/
def trailSearch : List Char → Option ℚ
  | [] => none
  | c :: rest =>
    match numSuffix (c :: rest) with
    | some q => some q
    | none => trailSearch rest

example : trailSearch ("8/4 - 9 to 3pm - 6").data = some 6 := by decide
example : trailSearch ("8/5 - 9 to 5 - 10").data = some 10 := by decide
example : trailSearch ("8/4 - 9 to 3pm").data = none := by decide
example : trailSearch ("x - 6.5 ").data = some (qmk 65 10) := by decide

/-- One parsed work record (`DayEntry` of the source).  The Python
`date` field (a `dt.date`) is its ordinal; the Python `end` field is
named `stop` because `end` is a Lean keyword. -/
structure DayEntry where
  date : Nat
  start : Time
  stop : Time
  hours : ℚ
  raw : String
deriving DecidableEq, Repr

/-- The data carried by the `[WARN]` discrepancy print
(src/main.py:216-218): month/day/year as parsed, the handwritten and
the computed hours. -/
structure Warn where
  m : Nat
  d : Nat
  y : Nat
  handwritten : ℚ
  computed : ℚ
deriving DecidableEq, Repr

/-- Kernel-reducible test for `abs(handwritten - computed) > 0.25`,
computed on numerators/denominators. -/
def absDiffGtQuarter (a b : ℚ) : Bool :=
  (a.den : ℤ) * (b.den : ℤ) < 4 * ((a.num * (b.den : ℤ) - b.num * (a.den : ℤ)).natAbs : ℤ)

/-- The trailing-hours reconciliation of `parse_handwritten_lines`
(src/main.py:211-220): beyond-tolerance disagreement keeps the
computed value and warns; otherwise the handwritten value wins. -/
def reconcile (m d y : Nat) (computed : ℚ) (hw? : Option ℚ) : ℚ × Option Warn :=
  match hw? with
  | none => (computed, none)
  | some hw =>
    if absDiffGtQuarter hw computed then (computed, some ⟨m, d, y, hw, computed⟩)
    else (hw, none)

/-- Processing of one raw line by `parse_handwritten_lines`
(src/main.py:182-230).  Result `ok (none, w)` means the line is
dropped (blank, no date, fewer than two split segments, or invalid
calendar date — in the last case a discrepancy warning may still have
been emitted, as in the source, where the warning is printed before
the `dt.date` construction); `error` models an uncaught `ValueError`
from `dt.time` inside `infer_times`. -/
def parseLine (month year : Nat) (raw : String) : Except Unit (Option DayEntry × Option Warn) :=
  let line := pyStrip raw
  if line.data.isEmpty then Except.ok (none, none)
  else
    match extractDate line month year with
    | none => Except.ok (none, none)
    | some (m, d, y) =>
      let parts := pySplitSep line
      if parts.length < 2 then Except.ok (none, none)
      else
        let start_txt := parts.getD 1 ("9")
        let end_txt := parts.getD 2 ("5pm")
        match infer_times start_txt end_txt true with
        | Except.error u => Except.error u
        | Except.ok (st?, en) =>
          match st? with
          | none => Except.ok (none, none)
          | some st =>
            let computed := hours_between st en
            let rec2 := reconcile m d y computed (trailSearch line.data)
            if isValidDate y m d then
              Except.ok (some ⟨dateOrd y m d, st, en, rec2.1, raw⟩, rec2.2)
            else Except.ok (none, rec2.2)

/-- The per-line loop of `parse_handwritten_lines`: entries and
warnings accumulate in line order; the first uncaught error aborts. -/
def parseLinesAux (month year : Nat) : List String → Except Unit (List DayEntry × List Warn)
  | [] => Except.ok ([], [])
  | raw :: rest =>
    match parseLine month year raw with
    | Except.error u => Except.error u
    | Except.ok (e?, w?) =>
      match parseLinesAux month year rest with
      | Except.error u => Except.error u
      | Except.ok (es, ws) => Except.ok (e?.toList ++ es, w?.toList ++ ws)

/-- Embedding of `parse_handwritten_lines` (src/main.py:177-231),
also returning the emitted `[WARN]` diagnostics. -/
def parse_handwritten_lines (text : String) (month year : Nat) :
    Except Unit (List DayEntry × List Warn) :=
  parseLinesAux month year (pySplitlines text.data)

/-- The entry (if any) contributed by one line. -/
def parseLineEntry (month year : Nat) (raw : String) : Option DayEntry :=
  match parseLine month year raw with
  | Except.ok (e?, _) => e?
  | Except.error _ => none

/-- Whether the run aborts with a non-zero status at the parsing
stage, modelling `main` (src/main.py:376-380): an uncaught exception
aborts, and so does an empty entry list (`SystemExit`). -/
def mainAborts (res : Except Unit (List DayEntry × List Warn)) : Bool :=
  match res with
  | Except.error _ => true
  | Except.ok (es, _) => es.isEmpty

example :
    parse_handwritten_lines ("8/4 - 9 to 3pm - 6") 8 2025
      = Except.ok ([⟨dateOrd 2025 8 4, ⟨9, 0⟩, ⟨15, 0⟩, 6, "8/4 - 9 to 3pm - 6"⟩], []) := by
  decide

example :
    parse_handwritten_lines ("8/5 - 9 to 5 - 10") 8 2025
      = Except.ok ([⟨dateOrd 2025 8 5, ⟨9, 0⟩, ⟨17, 0⟩, 8, "8/5 - 9 to 5 - 10"⟩],
          [⟨8, 5, 2025, 10, 8⟩]) := by
  decide

example :
    parse_handwritten_lines ("8/4 - 9:75 to 5pm\n8/5 - 9 to 5pm - 8") 8 2025
      = Except.error () := by
  decide

example : parseLine 8 2025 ("lorem ipsum") = Except.ok (none, none) := by decide

/-- Weekday labels (`WEEKDAYS` of the source). -/
def WEEKDAYS : List String :=
  ["Mon", "Tue", "Wed", "Thur", "Fri", "Sat", "Sun"]

/-- Embedding of `week_bounds_from_dates` (src/main.py:236-244) over
date ordinals.  `dt.date.today()` is an ambient input, passed
explicitly as `today`; it is consulted only when the list is empty. -/
def week_bounds_from_dates (today : Nat) (dates : List Nat) : Nat × Nat :=
  match dates with
  | [] => (today - pyWeekday today, today - pyWeekday today + 6)
  | d :: ds =>
    let min_d := List.foldl Nat.min d ds
    (min_d - pyWeekday min_d, min_d - pyWeekday min_d + 6)

/-- The loop body of `map_entries_to_week`: compute the day offset
from the week start and overwrite the slot when it lies in `[0, 6]`. -/
def weekStep (week_start : Nat) (acc : String → Option DayEntry) (e : DayEntry) :
    String → Option DayEntry :=
  let idx : ℤ := (e.date : ℤ) - (week_start : ℤ)
  if 0 ≤ idx ∧ idx ≤ 6 then
    fun k => if k = WEEKDAYS.getD idx.toNat ("") then some e else acc k
  else acc

/-- Embedding of `map_entries_to_week` (src/main.py:247-253).  The
Python dict keyed by the seven labels, with every slot initialised to
`None`, is modelled as a function from labels; lookups elsewhere use
`mapping.get(wd)`, so unknown keys simply give `none`. -/
def map_entries_to_week (entries : List DayEntry) (week_start : Nat) :
    String → Option DayEntry :=
  entries.foldl (weekStep week_start) (fun _ => none)

/-- `sum(e.hours for e in entries)`. -/
def sumHours (entries : List DayEntry) : ℚ :=
  (entries.map DayEntry.hours).sum

/-- The week/total computation of `main` (src/main.py:383-387): week
bounds from the dates of all parsed entries, the week mapping, and the
grand total `round(sum(e.hours for e in entries), 2)` computed over
all parsed entries. -/
def pipelineWeek (today : Nat) (entries : List DayEntry) :
    (Nat × Nat) × (String → Option DayEntry) × ℚ :=
  let dates := entries.map DayEntry.date
  let wb := week_bounds_from_dates today dates
  let mapping := map_entries_to_week entries wb.1
  (wb, mapping, round2 (sumHours entries))

example :
    week_bounds_from_dates 0 [dateOrd 2025 7 30, dateOrd 2025 7 28, dateOrd 2025 8 3]
      = (dateOrd 2025 7 28, dateOrd 2025 8 3) := by decide

/-- Spec-side definition, following §4.1 of the specification word for
word: elapsed time in hours, adding 24 hours to the end when it is not
strictly after the start, before rounding. -/
def specElapsedHours (start stop : Time) : ℚ :=
  let s := timeMinutes start
  let e := timeMinutes stop
  if s < e then ((e : ℚ) - (s : ℚ)) / 60
  else (((e : ℚ) + 1440) - (s : ℚ)) / 60

/-- Sample entry used to exhibit week-mapping behaviour: dated exactly
six days after week start 1000. -/
def demoSunEntry : DayEntry :=
  ⟨1006, ⟨9, 0⟩, ⟨17, 0⟩, 8, "sun"⟩

/-- Sample entry dated seven days after week start 1000 (the Monday of
the following week): dropped by the week mapping. -/
def demoNextEntry : DayEntry :=
  ⟨1007, ⟨9, 0⟩, ⟨12, 0⟩, 3, "next"⟩

example : map_entries_to_week [demoSunEntry] 1000 ("Sun") = some demoSunEntry := by decide
example : WEEKDAYS.all (fun w => (map_entries_to_week [demoNextEntry] 1000 w).isNone) := by
  decide

/-- Spec-side definition: the last entry of the list, in input order,
satisfying `p` — used to state last-write-wins for the week mapping. -/
def lastMatching (p : DayEntry → Bool) (l : List DayEntry) : Option DayEntry :=
  l.reverse.find? p

/-- Sample entry on Monday 2025-07-28 with 5 hours, kept by the week
mapping in the total-hours demonstration. -/
def demoKept : DayEntry :=
  ⟨dateOrd 2025 7 28, ⟨9, 0⟩, ⟨14, 0⟩, 5, "a"⟩

/-- Sample entry on Monday 2025-08-04 (the following week) with 3
hours: dropped by the week mapping yet counted in the total. -/
def demoDropped : DayEntry :=
  ⟨dateOrd 2025 8 4, ⟨9, 0⟩, ⟨12, 0⟩, 3, "b"⟩

theorem timeSearch_eq_none_iff (l : List Char) :
    timeSearch l = none ↔ ∀ c ∈ l, c.isDigit = false := by
  induction l with
  | nil => simp [timeSearch]
  | cons c rest ih =>
    cases hc : c.isDigit with
    | true => simp [timeSearch, hc]
    | false => simp [timeSearch, hc, ih]

theorem parse_time_eq (s : String) (d : Option String) (tm : TimeMatch)
    (h : timeSearch s.data = some tm) :
    parse_time s d
      = (if tm.min?.getD 0 < 60
          then Except.ok (some ⟨adjustedHour tm.h (ampmNorm tm.ampm? d) % 24, tm.min?.getD 0⟩)
          else Except.error ()) := by
  unfold parse_time
  rw [h]
  unfold mkTime
  have h24 : adjustedHour tm.h (ampmNorm tm.ampm? d) % 24 < 24 := Nat.mod_lt _ (by omega)
  by_cases hm : tm.min?.getD 0 < 60
  · rw [if_pos hm]
    simp [h24, hm]
  · rw [if_neg hm]
    simp [h24, hm]

theorem parse_time_ok_none_iff (s : String) (d : Option String) :
    parse_time s d = Except.ok none ↔ timeSearch s.data = none := by
  cases h : timeSearch s.data with
  | none =>
    unfold parse_time
    rw [h]
    simp
  | some tm =>
    rw [parse_time_eq s d tm h]
    by_cases hm : tm.min?.getD 0 < 60
    · rw [if_pos hm]
      simp
    · rw [if_neg hm]
      simp

/-- C1: the line `"8/4 - 9 to 3pm - 6"`, parsed with configured month
8 and year 2025, yields exactly one entry with date 2025-08-04,
start 09:00, end 15:00 and hours 6.0, and no discrepancy warning; the
handwritten 6 agrees with the computed hours within the 0.25
tolerance. -/
theorem c1_line_8_4_entry :
    parse_handwritten_lines ("8/4 - 9 to 3pm - 6") 8 2025
      = Except.ok ([⟨dateOrd 2025 8 4, ⟨9, 0⟩, ⟨15, 0⟩, 6, "8/4 - 9 to 3pm - 6"⟩], [])
    ∧ hours_between ⟨9, 0⟩ ⟨15, 0⟩ = 6
    ∧ absDiffGtQuarter 6 (hours_between ⟨9, 0⟩ ⟨15, 0⟩) = false := by
  refine ⟨by decide, by decide, by decide⟩

/-- C4: `parse_time` performs the specified 12-hour to 24-hour
conversions ("12am" to 00:00, "12pm" to 12:00, "1pm" to 13:00,
"11:30am" to 11:30, the minute defaulting to 0 when omitted), and it
returns absent exactly when the input contains no digit (hence no
numeric hour token). -/
theorem c4_parse_time_conversions :
    parse_time ("12am") none = Except.ok (some ⟨0, 0⟩)
    ∧ parse_time ("12pm") none = Except.ok (some ⟨12, 0⟩)
    ∧ parse_time ("1pm") none = Except.ok (some ⟨13, 0⟩)
    ∧ parse_time ("11:30am") none = Except.ok (some ⟨11, 30⟩)
    ∧ ∀ (s : String) (d : Option String),
        parse_time s d = Except.ok none ↔ ∀ c ∈ s.data, c.isDigit = false := by
  refine ⟨by decide, by decide, by decide, by decide, ?_⟩
  intro s d
  rw [parse_time_ok_none_iff]
  exact timeSearch_eq_none_iff s.data

/-- C10 counterexample: `parse_time` is not total — on `"9:75"` the
matched two-digit minute token is 60 or more and the embedded
`dt.time` constructor raises (`ValueError: minute must be in 0..59`
in the source), so `parse_time` fails instead of returning a value or
absent. -/
theorem c10_counterexample_minute_75 :
    parse_time ("9:75") none = Except.error () := by decide

/-- C10 (amended): for every input, `parse_time` either returns
absent, returns a valid time (hour < 24, minute < 60, the computed
hour having been reduced modulo 24), or raises; it raises exactly
when the matched minute token is 60 or more, and otherwise a matched
time yields the modulo-24-adjusted hour and the matched minute. -/
theorem c10_parse_time_totality (s : String) (d : Option String) :
    (parse_time s d = Except.ok none
      ∨ (∃ t, parse_time s d = Except.ok (some t) ∧ t.hour < 24 ∧ t.minute < 60)
      ∨ parse_time s d = Except.error ())
    ∧ (parse_time s d = Except.error ()
        ↔ ∃ tm, timeSearch s.data = some tm ∧ 60 ≤ tm.min?.getD 0)
    ∧ (∀ tm, timeSearch s.data = some tm → tm.min?.getD 0 < 60 →
        parse_time s d = Except.ok
          (some ⟨adjustedHour tm.h (ampmNorm tm.ampm? d) % 24, tm.min?.getD 0⟩)) := by
  refine ⟨?_, ⟨?_, ?_⟩, ?_⟩
  · cases h : timeSearch s.data with
    | none =>
      left
      unfold parse_time
      rw [h]
    | some tm =>
      by_cases hm : tm.min?.getD 0 < 60
      · right; left
        refine ⟨⟨adjustedHour tm.h (ampmNorm tm.ampm? d) % 24, tm.min?.getD 0⟩, ?_, ?_, hm⟩
        · rw [parse_time_eq s d tm h, if_pos hm]
        · exact Nat.mod_lt _ (by omega)
      · right; right
        rw [parse_time_eq s d tm h, if_neg hm]
  · intro herr
    cases h : timeSearch s.data with
    | none =>
      exfalso
      unfold parse_time at herr
      rw [h] at herr
      cases herr
    | some tm =>
      refine ⟨tm, rfl, ?_⟩
      rw [parse_time_eq s d tm h] at herr
      by_cases hm : tm.min?.getD 0 < 60
      · rw [if_pos hm] at herr
        cases herr
      · omega
  · rintro ⟨tm, h, h60⟩
    rw [parse_time_eq s d tm h, if_neg (by omega)]
  · intro tm h hm
    rw [parse_time_eq s d tm h, if_pos hm]

/-- Witness for the amended C10 theorem at the concrete input
`"11:30am"`. -/
theorem c10_witness_11_30 :
    parse_time ("11:30am") none = Except.ok (some ⟨11, 30⟩) := by
  have h := (c10_parse_time_totality ("11:30am") none).2.2
    ⟨11, some 30, some ['a', 'm']⟩ (by decide) (by decide)
  exact h.trans (by decide)

theorem parse_time_valid (s : String) (d : Option String) (t : Time)
    (h : parse_time s d = Except.ok (some t)) : t.hour < 24 ∧ t.minute < 60 := by
  cases ts : timeSearch s.data with
  | none =>
    unfold parse_time at h
    rw [ts] at h
    simp at h
  | some tm =>
    rw [parse_time_eq s d tm ts] at h
    by_cases hm : tm.min?.getD 0 < 60
    · rw [if_pos hm] at h
      have h1 := Option.some.inj (Except.ok.inj h)
      rw [← h1]
      exact ⟨Nat.mod_lt _ (by omega), hm⟩
    · rw [if_neg hm] at h
      simp at h

theorem lexLE_iff_minutes (a b : Time) (ha : a.minute < 60) (hb : b.minute < 60) :
    lexLE a b ↔ timeMinutes a ≤ timeMinutes b := by
  unfold lexLE timeMinutes
  omega

/-- C2 counterexample: the stated rule "if start is still absent after
defaulting it becomes 9:00 AM" fails when `assumeStart9am` is false —
an unparseable start then stays absent (`infer_times "" "" False`
returns `(None, 17:00)` in the source; the second 9:00 default is
guarded by `assume_start_9am` and therefore dead code). -/
theorem c2_counterexample_no_default :
    ¬ (∀ (s e : String) (r : Option Time × Time),
        parse_time s none = Except.ok none → infer_times s e false = Except.ok r →
        r.1 = some ⟨9, 0⟩) := by
  intro hclaim
  have h := hclaim ("") ("") (none, ⟨17, 0⟩) (by decide) (by decide)
  exact absurd h (by decide)

/-- C2 (amended): the inference rules actually implemented:
(1) an unparseable start with `assumeStart9am` true yields start 9:00;
(2) when both sides parse, the end gets 12 hours added (modulo 24)
whenever it is not strictly later than the start in minutes of day;
(3) with `assumeStart9am` false an unparseable start remains absent
(the unconditional second default of the spec is dead code); and
(4) an unparseable end defaults to 17:00. -/
theorem c2_infer_times_rules :
    (∀ (s e : String) (r : Option Time × Time),
        parse_time s none = Except.ok none → infer_times s e true = Except.ok r →
        r.1 = some ⟨9, 0⟩)
    ∧ (∀ (s e : String) (a : Bool) (st en : Time) (r : Option Time × Time),
        parse_time s none = Except.ok (some st) → parse_time e none = Except.ok (some en) →
        infer_times s e a = Except.ok r →
        r.1 = some st
        ∧ r.2 = (if timeMinutes en ≤ timeMinutes st then addHours12 en else en))
    ∧ (∀ (s e : String) (r : Option Time × Time),
        parse_time s none = Except.ok none → infer_times s e false = Except.ok r →
        r.1 = none)
    ∧ (∀ (s e : String) (a : Bool) (r : Option Time × Time),
        parse_time e none = Except.ok none → infer_times s e a = Except.ok r →
        r.2 = ⟨17, 0⟩) := by
  refine ⟨?_, ?_, ?_, ?_⟩
  · intro s e r h1 h2
    unfold infer_times at h2
    rw [h1] at h2
    cases pe : parse_time e none with
    | error u =>
      rw [pe] at h2
      simp at h2
    | ok en0 =>
      rw [pe] at h2
      cases en0 with
      | none =>
        simp at h2
        subst h2
        rfl
      | some en =>
        simp at h2
        subst h2
        rfl
  · intro s e a st en r h1 h2 h3
    have hstv := parse_time_valid s none st h1
    have henv := parse_time_valid e none en h2
    unfold infer_times at h3
    rw [h1, h2] at h3
    have hiso : (some st).isNone = false := rfl
    simp only [hiso, Bool.and_false, if_false, Bool.false_eq_true] at h3
    simp at h3
    subst h3
    refine ⟨rfl, ?_⟩
    exact if_congr (lexLE_iff_minutes en st henv.2 hstv.2) rfl rfl
  · intro s e r h1 h2
    unfold infer_times at h2
    rw [h1] at h2
    cases pe : parse_time e none with
    | error u =>
      rw [pe] at h2
      simp at h2
    | ok en0 =>
      rw [pe] at h2
      cases en0 with
      | none =>
        simp at h2
        subst h2
        rfl
      | some en =>
        simp at h2
        subst h2
        rfl
  · intro s e a r h1 h2
    unfold infer_times at h2
    cases ps : parse_time s none with
    | error u =>
      rw [ps] at h2
      simp at h2
    | ok st0 =>
      rw [ps, h1] at h2
      cases st0 with
      | none =>
        cases a with
        | true => simp at h2; subst h2; rfl
        | false => simp at h2; subst h2; rfl
      | some st =>
        simp at h2
        subst h2
        rfl

/-- Witness for the amended C2 theorem: rule (1) at the concrete
inputs `""` and `"5pm"`. -/
theorem c2_witness_start_default :
    ∃ r : Option Time × Time,
      infer_times ("") ("5pm") true = Except.ok r ∧ r.1 = some ⟨9, 0⟩ :=
  ⟨(some ⟨9, 0⟩, ⟨17, 0⟩), by decide,
    c2_infer_times_rules.1 ("") ("5pm") (some ⟨9, 0⟩, ⟨17, 0⟩) (by decide) (by decide)⟩

theorem round2_eq (q : ℚ) :
    round2 q = ((rheDiv (q.num * 100) (q.den : ℤ) : ℤ) : ℚ) / 100 := by
  unfold round2
  exact qmk_eq _ _ (by norm_num)

theorem rheDiv_nonneg (a b : ℤ) (ha : 0 ≤ a) (hb : 0 < b) : 0 ≤ rheDiv a b := by
  unfold rheDiv
  have hn : 0 ≤ a / b := Int.ediv_nonneg ha (le_of_lt hb)
  dsimp only
  split_ifs <;> omega

theorem round2_nonneg (q : ℚ) (h : 0 ≤ q) : 0 ≤ round2 q := by
  rw [round2_eq]
  have hnum : 0 ≤ q.num := Rat.num_nonneg.mpr h
  have hden : (0 : ℤ) < (q.den : ℤ) := by exact_mod_cast q.pos
  have hr := rheDiv_nonneg (q.num * 100) (q.den : ℤ) (by positivity) hden
  have : (0 : ℚ) ≤ ((rheDiv (q.num * 100) (q.den : ℤ) : ℤ) : ℚ) := by exact_mod_cast hr
  positivity

theorem qmk_nonneg (n : ℤ) (d : ℕ) (h : 0 ≤ n) : 0 ≤ qmk n d := by
  by_cases hd : d = 0
  · subst hd
    unfold qmk
    simp
  · rw [qmk_eq n d hd]
    have : (0 : ℚ) ≤ (n : ℚ) := by exact_mod_cast h
    positivity

/-- C3: `hoursBetween` equals the elapsed time in hours rounded to
two decimals, where 24 hours are added to the end whenever it is not
strictly after the start (minutes of day), and the result is
non-negative; both concrete sanity values from the spec hold.
`specElapsedHours` is written from the spec's words. -/
theorem c3_hours_between_spec :
    (∀ (s e : Time), s.hour < 24 → s.minute < 60 → e.hour < 24 → e.minute < 60 →
      hours_between s e = round2 (specElapsedHours s e) ∧ 0 ≤ hours_between s e)
    ∧ hours_between ⟨9, 0⟩ ⟨17, 0⟩ = 8
    ∧ hours_between ⟨22, 0⟩ ⟨6, 0⟩ = 8 := by
  refine ⟨?_, by decide, by decide⟩
  intro s e hs1 hs2 he1 he2
  have hiff := lexLE_iff_minutes e s he2 hs2
  constructor
  · have key : qmk (((if lexLE e s then timeMinutes e + 1440 else timeMinutes e : ℕ) : ℤ)
        - (timeMinutes s : ℤ)) 60 = specElapsedHours s e := by
      unfold specElapsedHours
      by_cases hle : lexLE e s
      · have hcond : ¬ (timeMinutes s < timeMinutes e) := by
          have := hiff.mp hle
          omega
        rw [if_pos hle, if_neg hcond, qmk_eq _ _ (by norm_num)]
        push_cast
        ring
      · have hcond : timeMinutes s < timeMinutes e := by
          rw [hiff] at hle
          omega
        rw [if_neg hle, if_pos hcond, qmk_eq _ _ (by norm_num)]
        push_cast
        ring
    show round2 (qmk (((if lexLE e s then timeMinutes e + 1440 else timeMinutes e : ℕ) : ℤ)
        - (timeMinutes s : ℤ)) 60) = round2 (specElapsedHours s e)
    exact congrArg round2 key
  · show (0 : ℚ) ≤ round2 (qmk (((if lexLE e s then timeMinutes e + 1440
        else timeMinutes e : ℕ) : ℤ) - (timeMinutes s : ℤ)) 60)
    apply round2_nonneg
    apply qmk_nonneg
    have hsb : timeMinutes s ≤ 23 * 60 + 59 := by
      unfold timeMinutes
      omega
    by_cases hle : lexLE e s
    · rw [if_pos hle]
      omega
    · rw [hiff] at hle
      rw [if_neg ?_]
      · omega
      · rw [hiff]
        omega

/-- Witness for C3 at the concrete pair 9:00 and 17:00. -/
theorem c3_witness_9_17 :
    hours_between ⟨9, 0⟩ ⟨17, 0⟩ = round2 (specElapsedHours ⟨9, 0⟩ ⟨17, 0⟩)
    ∧ 0 ≤ hours_between ⟨9, 0⟩ ⟨17, 0⟩ :=
  c3_hours_between_spec.1 ⟨9, 0⟩ ⟨17, 0⟩ (by decide) (by decide) (by decide) (by decide)

theorem absDiffGtQuarter_iff (a b : ℚ) :
    absDiffGtQuarter a b = true ↔ 1 / 4 < |a - b| := by
  unfold absDiffGtQuarter
  rw [decide_eq_true_eq]
  have hda : ((a.den : ℕ) : ℚ) ≠ 0 := by
    have := a.pos
    positivity
  have hdb : ((b.den : ℕ) : ℚ) ≠ 0 := by
    have := b.pos
    positivity
  have hsub : a - b
      = ((a.num * (b.den : ℤ) - b.num * (a.den : ℤ) : ℤ) : ℚ)
        / (((a.den : ℤ) * (b.den : ℤ) : ℤ) : ℚ) := by
    conv_lhs => rw [← Rat.num_div_den a, ← Rat.num_div_den b]
    rw [div_sub_div _ _ hda hdb]
    push_cast
    ring_nf
  rw [hsub]
  have hDpos : (0 : ℚ) < (((a.den : ℤ) * (b.den : ℤ) : ℤ) : ℚ) := by
    have ha := a.pos
    have hb := b.pos
    push_cast
    positivity
  rw [abs_div, abs_of_pos hDpos, div_lt_div_iff₀ (by norm_num) hDpos]
  rw [← Int.cast_abs]
  have habs : (|a.num * (b.den : ℤ) - b.num * (a.den : ℤ)| : ℤ)
      = ((a.num * (b.den : ℤ) - b.num * (a.den : ℤ)).natAbs : ℤ) :=
    Int.abs_eq_natAbs _
  constructor
  · intro h
    rw [← habs] at h
    have h2 : ((a.den : ℤ) * (b.den : ℤ) : ℚ)
        < ((4 * |a.num * (b.den : ℤ) - b.num * (a.den : ℤ)| : ℤ) : ℚ) := by
      exact_mod_cast h
    push_cast at h2 ⊢
    linarith
  · intro h
    rw [← habs]
    have h2 : ((a.den : ℤ) * (b.den : ℤ) : ℚ)
        < ((4 * |a.num * (b.den : ℤ) - b.num * (a.den : ℤ)| : ℤ) : ℚ) := by
      push_cast
      push_cast at h
      linarith
    exact_mod_cast h2

theorem parseLine_success_shape (month year : Nat) (raw : String) (e : DayEntry)
    (w : Option Warn) (h : parseLine month year raw = Except.ok (some e, w)) :
    ∃ (m d y : Nat) (st en : Time),
      extractDate (pyStrip raw) month year = some (m, d, y)
      ∧ isValidDate y m d = true
      ∧ e = ⟨dateOrd y m d, st, en,
          (reconcile m d y (hours_between st en) (trailSearch (pyStrip raw).data)).1, raw⟩
      ∧ w = (reconcile m d y (hours_between st en) (trailSearch (pyStrip raw).data)).2 := by
  simp only [parseLine] at h
  by_cases hemp : (pyStrip raw).data.isEmpty
  · rw [if_pos hemp] at h
    simp at h
  · rw [if_neg hemp] at h
    cases hx : extractDate (pyStrip raw) month year with
    | none =>
      rw [hx] at h
      simp at h
    | some mdy =>
      obtain ⟨m, d, y⟩ := mdy
      rw [hx] at h
      dsimp only at h
      by_cases hlen : (pySplitSep (pyStrip raw)).length < 2
      · rw [if_pos hlen] at h
        simp at h
      · rw [if_neg hlen] at h
        cases hit : infer_times ((pySplitSep (pyStrip raw)).getD 1 ("9"))
            ((pySplitSep (pyStrip raw)).getD 2 ("5pm")) true with
        | error u =>
          rw [hit] at h
          simp at h
        | ok pr =>
          obtain ⟨st?, en⟩ := pr
          rw [hit] at h
          dsimp only at h
          cases st? with
          | none => simp at h
          | some st =>
            dsimp only at h
            by_cases hval : isValidDate y m d
            · rw [if_pos hval] at h
              simp only [Except.ok.injEq, Prod.mk.injEq, Option.some.injEq] at h
              exact ⟨m, d, y, st, en, rfl, hval, h.1.symm, h.2.symm⟩
            · rw [if_neg hval] at h
              simp at h

/-- C5: whenever a parsed line carries a trailing numeric token, the
handwritten value wins if it is within 0.25 of the computed hours,
and otherwise the computed value wins and a diagnostic carrying the
handwritten and computed values (and the parsed date, see the
concrete conjunct) is emitted; the line `"8/5 - 9 to 5 - 10"` yields
hours 8 and a warning naming 8/5/2025. -/
theorem c5_trailing_hours_reconciliation :
    (∀ (month year : Nat) (raw : String) (e : DayEntry) (w : Option Warn) (hw : ℚ),
      parseLine month year raw = Except.ok (some e, w) →
      trailSearch (pyStrip raw).data = some hw →
      ((1 / 4 < |hw - hours_between e.start e.stop| →
          e.hours = hours_between e.start e.stop
          ∧ ∃ wr, w = some wr ∧ wr.handwritten = hw
              ∧ wr.computed = hours_between e.start e.stop)
        ∧ (|hw - hours_between e.start e.stop| ≤ 1 / 4 →
          e.hours = hw ∧ w = none)))
    ∧ parse_handwritten_lines ("8/5 - 9 to 5 - 10") 8 2025
        = Except.ok ([⟨dateOrd 2025 8 5, ⟨9, 0⟩, ⟨17, 0⟩, 8, "8/5 - 9 to 5 - 10"⟩],
            [⟨8, 5, 2025, 10, 8⟩]) := by
  refine ⟨?_, by decide⟩
  intro month year raw e w hw hp ht
  obtain ⟨m, d, y, st, en, hx, hval, he, hww⟩ := parseLine_success_shape month year raw e w hp
  rw [ht] at he hww
  subst he
  subst hww
  unfold reconcile
  dsimp only
  by_cases habs : absDiffGtQuarter hw (hours_between st en) = true
  · rw [if_pos habs]
    have hgt := (absDiffGtQuarter_iff hw (hours_between st en)).mp habs
    exact ⟨fun _ => ⟨rfl, ⟨⟨m, d, y, hw, hours_between st en⟩, rfl, rfl, rfl⟩⟩,
      fun hle => absurd hgt (by linarith)⟩
  · rw [if_neg habs]
    have hle := (absDiffGtQuarter_iff hw (hours_between st en)).not.mp habs
    push_neg at hle
    exact ⟨fun hgt => absurd hgt (by linarith), fun _ => ⟨rfl, rfl⟩⟩

/-- Witness for C5 at the line `"8/5 - 9 to 5 - 10"` (handwritten 10
versus computed 8, beyond tolerance). -/
theorem c5_witness_8_5 :
    (1 / 4 < |(10 : ℚ) - hours_between ⟨9, 0⟩ ⟨17, 0⟩| →
      (⟨dateOrd 2025 8 5, ⟨9, 0⟩, ⟨17, 0⟩, 8, "8/5 - 9 to 5 - 10"⟩ : DayEntry).hours
          = hours_between ⟨9, 0⟩ ⟨17, 0⟩
      ∧ ∃ wr, (some ⟨8, 5, 2025, 10, 8⟩ : Option Warn) = some wr
          ∧ wr.handwritten = 10 ∧ wr.computed = hours_between ⟨9, 0⟩ ⟨17, 0⟩)
    ∧ (|(10 : ℚ) - hours_between ⟨9, 0⟩ ⟨17, 0⟩| ≤ 1 / 4 →
      (⟨dateOrd 2025 8 5, ⟨9, 0⟩, ⟨17, 0⟩, 8, "8/5 - 9 to 5 - 10"⟩ : DayEntry).hours = 10
      ∧ (some ⟨8, 5, 2025, 10, 8⟩ : Option Warn) = none) :=
  c5_trailing_hours_reconciliation.1 8 2025 ("8/5 - 9 to 5 - 10")
    ⟨dateOrd 2025 8 5, ⟨9, 0⟩, ⟨17, 0⟩, 8, "8/5 - 9 to 5 - 10"⟩
    (some ⟨8, 5, 2025, 10, 8⟩) 10 (by decide) (by decide)

theorem parseLinesAux_entries (month year : Nat) :
    ∀ (L : List String) (es : List DayEntry) (ws : List Warn),
      parseLinesAux month year L = Except.ok (es, ws) →
      es = L.filterMap (parseLineEntry month year) := by
  intro L
  induction L with
  | nil =>
    intro es ws h
    simp only [parseLinesAux, Except.ok.injEq, Prod.mk.injEq] at h
    simp [← h.1]
  | cons raw rest ih =>
    intro es ws h
    unfold parseLinesAux at h
    cases hp : parseLine month year raw with
    | error u =>
      rw [hp] at h
      simp at h
    | ok pw =>
      obtain ⟨e?, w?⟩ := pw
      rw [hp] at h
      dsimp only at h
      cases hr : parseLinesAux month year rest with
      | error u =>
        rw [hr] at h
        simp at h
      | ok esws =>
        obtain ⟨es', ws'⟩ := esws
        rw [hr] at h
        simp only [Except.ok.injEq, Prod.mk.injEq] at h
        obtain ⟨hes, _⟩ := h
        have hple : parseLineEntry month year raw = e? := by
          unfold parseLineEntry
          rw [hp]
        rw [List.filterMap_cons, hple, ← hes, ← ih es' ws' hr]
        cases e? with
        | none => simp
        | some e0 => simp

/-- C8 counterexample: a line whose time token carries the two-digit
minute 75 raises an uncaught `ValueError` inside `dt.time`, aborting
the whole run even though the next line is perfectly valid — so the
run can abort with a non-zero status although the surviving lines
would have produced a non-empty entry sequence. -/
theorem c8_counterexample_uncaught_minute :
    parse_handwritten_lines ("8/4 - 9:75 to 5pm\n8/5 - 9 to 5pm - 8") 8 2025
      = Except.error ()
    ∧ parseLine 8 2025 ("8/5 - 9 to 5pm - 8")
        = Except.ok (some ⟨dateOrd 2025 8 5, ⟨9, 0⟩, ⟨17, 0⟩, 8, "8/5 - 9 to 5pm - 8"⟩,
            none) :=
  ⟨by decide, by decide⟩

/-- C8 (amended): the three listed per-line failures (no date match,
fewer than two separator segments, invalid calendar date) drop the
line and contribute no entry, surviving lines are processed in input
order, and — provided no line raises an uncaught invalid-minute
`ValueError` — the run aborts exactly when the entry sequence is
empty; such a raising line, however, aborts the whole run. -/
theorem c8_per_line_failure_policy :
    (∀ (month year : Nat) (raw : String),
      extractDate (pyStrip raw) month year = none →
      parseLine month year raw = Except.ok (none, none))
    ∧ (∀ (month year : Nat) (raw : String),
      (pySplitSep (pyStrip raw)).length < 2 →
      parseLine month year raw = Except.ok (none, none))
    ∧ (∀ (month year : Nat) (raw : String) (m d y : Nat)
        (r : Option DayEntry × Option Warn),
      extractDate (pyStrip raw) month year = some (m, d, y) →
      isValidDate y m d = false →
      parseLine month year raw = Except.ok r → r.1 = none)
    ∧ (∀ (month year : Nat) (L : List String) (es : List DayEntry) (ws : List Warn),
      parseLinesAux month year L = Except.ok (es, ws) →
      es = L.filterMap (parseLineEntry month year))
    ∧ (∀ (text : String) (month year : Nat),
      mainAborts (parse_handwritten_lines text month year) = true
        ↔ parse_handwritten_lines text month year = Except.error ()
          ∨ ∃ ws, parse_handwritten_lines text month year = Except.ok ([], ws)) := by
  refine ⟨?_, ?_, ?_, parseLinesAux_entries, ?_⟩
  · intro month year raw hx
    simp only [parseLine]
    by_cases hemp : (pyStrip raw).data.isEmpty
    · rw [if_pos hemp]
    · rw [if_neg hemp, hx]
  · intro month year raw hlen
    simp only [parseLine]
    by_cases hemp : (pyStrip raw).data.isEmpty
    · rw [if_pos hemp]
    · rw [if_neg hemp]
      cases hx : extractDate (pyStrip raw) month year with
      | none => rfl
      | some mdy =>
        obtain ⟨m, d, y⟩ := mdy
        dsimp only
        rw [if_pos hlen]
  · intro month year raw m d y r hx hval h
    simp only [parseLine] at h
    by_cases hemp : (pyStrip raw).data.isEmpty
    · rw [if_pos hemp] at h
      rw [← Except.ok.inj h]
    · rw [if_neg hemp, hx] at h
      dsimp only at h
      by_cases hlen : (pySplitSep (pyStrip raw)).length < 2
      · rw [if_pos hlen] at h
        rw [← Except.ok.inj h]
      · rw [if_neg hlen] at h
        cases hit : infer_times ((pySplitSep (pyStrip raw)).getD 1 ("9"))
            ((pySplitSep (pyStrip raw)).getD 2 ("5pm")) true with
        | error u =>
          rw [hit] at h
          simp at h
        | ok pr =>
          obtain ⟨st?, en⟩ := pr
          rw [hit] at h
          dsimp only at h
          cases st? with
          | none => rw [← Except.ok.inj h]
          | some st =>
            dsimp only at h
            rw [if_neg (by rw [hval]; intro hc; cases hc)] at h
            rw [← Except.ok.inj h]
  · intro text month year
    cases hres : parse_handwritten_lines text month year with
    | error u =>
      cases u
      simp [mainAborts]
    | ok esws =>
      obtain ⟨es, ws⟩ := esws
      cases es with
      | nil => simp [mainAborts]
      | cons e0 rest => simp [mainAborts]

/-- Witness for the amended C8 theorem: the date-pattern failure case
at the concrete line `"lorem ipsum"`. -/
theorem c8_witness_lorem_ipsum :
    parseLine 8 2025 ("lorem ipsum") = Except.ok (none, none) :=
  c8_per_line_failure_policy.1 8 2025 ("lorem ipsum") (by decide)

theorem foldlMin_le_init : ∀ (ds : List Nat) (d : Nat), List.foldl Nat.min d ds ≤ d := by
  intro ds
  induction ds with
  | nil => intro d; exact Nat.le_refl d
  | cons a t ih =>
    intro d
    exact le_trans (ih (Nat.min d a)) (Nat.min_le_left d a)

theorem foldlMin_le_mem :
    ∀ (ds : List Nat) (d x : Nat), x ∈ ds → List.foldl Nat.min d ds ≤ x := by
  intro ds
  induction ds with
  | nil => intro d x hx; cases hx
  | cons a t ih =>
    intro d x hx
    rcases List.mem_cons.mp hx with h | h
    · subst h
      exact le_trans (foldlMin_le_init t (Nat.min d x)) (Nat.min_le_right d x)
    · exact ih (Nat.min d a) x h

theorem foldlMin_mem :
    ∀ (ds : List Nat) (d : Nat),
      List.foldl Nat.min d ds = d ∨ List.foldl Nat.min d ds ∈ ds := by
  intro ds
  induction ds with
  | nil => intro d; left; rfl
  | cons a t ih =>
    intro d
    rcases ih (Nat.min d a) with h | h
    · rw [List.foldl_cons, h]
      by_cases hda : d ≤ a
      · left
        exact min_eq_left hda
      · right
        have hmin : Nat.min d a = a := min_eq_right (by omega)
        rw [hmin]
        exact List.mem_cons_self a t
    · right
      exact List.mem_cons_of_mem a h

/-- C6: for a non-empty date list, `weekBounds` returns a start that
is the Monday on or before the minimum date (weekday 0, at most the
minimum, less than 7 days before it) paired with that start plus six
days; the 2025-07-28..2025-08-03 span returns exactly
(2025-07-28, 2025-08-03) across the month boundary. -/
theorem c6_week_bounds_monday :
    (∀ (today d : Nat) (ds : List Nat),
      (∀ x ∈ d :: ds, 0 < x) →
      ∃ m, m ∈ d :: ds ∧ (∀ x ∈ d :: ds, m ≤ x)
        ∧ pyWeekday (week_bounds_from_dates today (d :: ds)).1 = 0
        ∧ (week_bounds_from_dates today (d :: ds)).1 ≤ m
        ∧ m - (week_bounds_from_dates today (d :: ds)).1 < 7
        ∧ (week_bounds_from_dates today (d :: ds)).2
            = (week_bounds_from_dates today (d :: ds)).1 + 6)
    ∧ (∀ today : Nat,
      week_bounds_from_dates today
          [dateOrd 2025 7 28, dateOrd 2025 7 29, dateOrd 2025 7 30, dateOrd 2025 7 31,
            dateOrd 2025 8 1, dateOrd 2025 8 2, dateOrd 2025 8 3]
        = (dateOrd 2025 7 28, dateOrd 2025 8 3)) := by
  constructor
  · intro today d ds hpos
    have hmem : List.foldl Nat.min d ds ∈ d :: ds := by
      rcases foldlMin_mem ds d with h | h
      · rw [h]
        exact List.mem_cons_self d ds
      · exact List.mem_cons_of_mem d h
    have hle : ∀ x ∈ d :: ds, List.foldl Nat.min d ds ≤ x := by
      intro x hx
      rcases List.mem_cons.mp hx with h | h
      · rw [h]
        exact foldlMin_le_init ds d
      · exact foldlMin_le_mem ds d x h
    have hmpos : 0 < List.foldl Nat.min d ds := hpos _ hmem
    refine ⟨List.foldl Nat.min d ds, hmem, hle, ?_, ?_, ?_, rfl⟩
    · show pyWeekday (List.foldl Nat.min d ds - pyWeekday (List.foldl Nat.min d ds)) = 0
      unfold pyWeekday
      omega
    · show List.foldl Nat.min d ds - pyWeekday (List.foldl Nat.min d ds)
        ≤ List.foldl Nat.min d ds
      omega
    · show List.foldl Nat.min d ds
        - (List.foldl Nat.min d ds - pyWeekday (List.foldl Nat.min d ds)) < 7
      unfold pyWeekday
      omega
  · intro today
    rfl

/-- Witness for C6 at the concrete cross-month week list. -/
theorem c6_witness_july_week :
    ∃ m, m ∈ dateOrd 2025 7 28 :: [dateOrd 2025 7 29, dateOrd 2025 8 3]
      ∧ (∀ x ∈ dateOrd 2025 7 28 :: [dateOrd 2025 7 29, dateOrd 2025 8 3], m ≤ x)
      ∧ pyWeekday (week_bounds_from_dates 0
          (dateOrd 2025 7 28 :: [dateOrd 2025 7 29, dateOrd 2025 8 3])).1 = 0
      ∧ (week_bounds_from_dates 0
          (dateOrd 2025 7 28 :: [dateOrd 2025 7 29, dateOrd 2025 8 3])).1 ≤ m
      ∧ m - (week_bounds_from_dates 0
          (dateOrd 2025 7 28 :: [dateOrd 2025 7 29, dateOrd 2025 8 3])).1 < 7
      ∧ (week_bounds_from_dates 0
          (dateOrd 2025 7 28 :: [dateOrd 2025 7 29, dateOrd 2025 8 3])).2
          = (week_bounds_from_dates 0
              (dateOrd 2025 7 28 :: [dateOrd 2025 7 29, dateOrd 2025 8 3])).1 + 6 :=
  c6_week_bounds_monday.1 0 (dateOrd 2025 7 28) [dateOrd 2025 7 29, dateOrd 2025 8 3]
    (by decide)

theorem weekdays_getD_injective :
    ∀ (i j : Fin 7), WEEKDAYS.getD i.val ("") = WEEKDAYS.getD j.val ("") → i = j := by
  decide

theorem weekStep_apply (ws : Nat) (acc : String → Option DayEntry) (e : DayEntry)
    (i : Fin 7) :
    weekStep ws acc e (WEEKDAYS.getD i.val (""))
      = if (e.date : ℤ) - (ws : ℤ) = (i.val : ℤ) then some e
        else acc (WEEKDAYS.getD i.val ("")) := by
  unfold weekStep
  by_cases hp : (e.date : ℤ) - (ws : ℤ) = (i.val : ℤ)
  · rw [if_pos hp]
    have hwin : 0 ≤ (e.date : ℤ) - (ws : ℤ) ∧ (e.date : ℤ) - (ws : ℤ) ≤ 6 := by
      have := i.isLt
      omega
    rw [if_pos hwin]
    have hidx : ((e.date : ℤ) - (ws : ℤ)).toNat = i.val := by omega
    rw [hidx]
    simp
  · rw [if_neg hp]
    by_cases hwin : 0 ≤ (e.date : ℤ) - (ws : ℤ) ∧ (e.date : ℤ) - (ws : ℤ) ≤ 6
    · rw [if_pos hwin]
      have hlt : ((e.date : ℤ) - (ws : ℤ)).toNat < 7 := by omega
      have hne : WEEKDAYS.getD i.val ("")
          ≠ WEEKDAYS.getD ((e.date : ℤ) - (ws : ℤ)).toNat ("") := by
        intro hc
        have hij := weekdays_getD_injective i ⟨((e.date : ℤ) - (ws : ℤ)).toNat, hlt⟩ hc
        have hval : i.val = ((e.date : ℤ) - (ws : ℤ)).toNat := congrArg Fin.val hij
        apply hp
        omega
      rw [if_neg hne]
    · rw [if_neg hwin]

theorem mapWeek_foldl (ws : Nat) (i : Fin 7) :
    ∀ (l : List DayEntry) (acc : String → Option DayEntry),
      List.foldl (weekStep ws) acc l (WEEKDAYS.getD i.val (""))
        = match lastMatching (fun e => (e.date : ℤ) - (ws : ℤ) == (i.val : ℤ)) l with
          | some x => some x
          | none => acc (WEEKDAYS.getD i.val ("")) := by
  intro l
  induction l with
  | nil => intro acc; rfl
  | cons e t ih =>
    intro acc
    rw [List.foldl_cons, ih (weekStep ws acc e)]
    cases hf : lastMatching (fun e => (e.date : ℤ) - (ws : ℤ) == (i.val : ℤ)) t with
    | some x =>
      have hf2 : t.reverse.find? (fun e => (e.date : ℤ) - (ws : ℤ) == (i.val : ℤ))
          = some x := hf
      unfold lastMatching
      rw [List.reverse_cons, List.find?_append, hf2]
      rfl
    | none =>
      have hf2 : t.reverse.find? (fun e => (e.date : ℤ) - (ws : ℤ) == (i.val : ℤ))
          = none := hf
      unfold lastMatching
      rw [List.reverse_cons, List.find?_append, hf2]
      rw [weekStep_apply ws acc e i]
      by_cases hp : (e.date : ℤ) - (ws : ℤ) = (i.val : ℤ)
      · rw [if_pos hp]
        have hfe : (List.find? (fun e => (e.date : ℤ) - (ws : ℤ) == (i.val : ℤ)) [e])
            = some e := by
          rw [List.find?_cons]
          simp [hp]
        rw [hfe]
        rfl
      · rw [if_neg hp]
        have hbe : ((e.date : ℤ) - (ws : ℤ) == (i.val : ℤ)) = false := by
          simp [hp]
        have hfe : (List.find? (fun e => (e.date : ℤ) - (ws : ℤ) == (i.val : ℤ)) [e])
            = none := by
          rw [List.find?_cons, hbe]
          rfl
        rw [hfe]
        rfl

/-- C7: each weekday slot of the mapping holds exactly the last entry
in input order whose day offset from the week start equals that
slot's index (so in-window entries land at their offset slot,
out-of-window entries — negative offset or 7 and more — appear in no
slot, and on collisions the later entry wins); concretely, an entry 6
days after the week start lands in the Sunday slot and an entry 7
days after appears in no slot. -/
theorem c7_map_entries_characterisation :
    (∀ (entries : List DayEntry) (ws : Nat) (i : Fin 7),
      map_entries_to_week entries ws (WEEKDAYS.getD i.val (""))
        = lastMatching (fun e => (e.date : ℤ) - (ws : ℤ) == (i.val : ℤ)) entries)
    ∧ map_entries_to_week [demoSunEntry] 1000 ("Sun") = some demoSunEntry
    ∧ WEEKDAYS.all (fun w => (map_entries_to_week [demoNextEntry] 1000 w).isNone)
        = true := by
  refine ⟨?_, by decide, by decide⟩
  intro entries ws i
  unfold map_entries_to_week
  rw [mapWeek_foldl ws i entries (fun _ => none)]
  cases hf : lastMatching (fun e => (e.date : ℤ) - (ws : ℤ) == (i.val : ℤ)) entries with
  | some x => rfl
  | none => rfl

/-- C9: the reported total is the 2-decimal rounding of the sum of
the hours of every parsed entry — computed before and independently
of the week mapping, so that entries dropped from the rendered week
still contribute; in the concrete demonstration the dropped
next-Monday entry (3h) is in no slot yet the total is 8 = 5 + 3. -/
theorem c9_total_includes_dropped :
    (∀ (today : Nat) (entries : List DayEntry),
      (pipelineWeek today entries).2.2 = round2 (sumHours entries))
    ∧ (pipelineWeek 0 [demoKept, demoDropped]).2.2 = 8
    ∧ (pipelineWeek 0 [demoKept, demoDropped]).2.1 ("Mon") = some demoKept
    ∧ WEEKDAYS.all
        (fun w => !((pipelineWeek 0 [demoKept, demoDropped]).2.1 w == some demoDropped))
        = true := by
  refine ⟨fun today entries => rfl, ?_, by decide, by decide⟩
  show round2 (sumHours [demoKept, demoDropped]) = 8
  have hsum : sumHours [demoKept, demoDropped] = 8 := by
    simp [sumHours, demoKept, demoDropped]
    norm_num
  rw [hsum]
  decide
